import Mathlib

/-!
Verification of the usage/cost aggregation engine of `server.js`
(atlas-simple-dashboard).

Shallow embedding conventions:
* JS numbers carrying money or rates are modelled as `ℚ` (the engine's own
  spec only asks for 1e-6 relative tolerance; all arithmetic used by the
  claims is exact in `ℚ`).
* Token counts are `ℕ`.
* Absent JS object fields are `Option.none`; the idiom `x || 0` is
  `Option.getD 0` (for a present numeric value, `v || 0` differs from `v`
  only at `v = 0`, where both give `0`).
* Date strings `"YYYY-MM-DD"` (produced by `starting_at.split('T')[0]`) are
  modelled as `Ymd` triples; lexicographic comparison of well-formed
  equal-length date strings coincides with lexicographic comparison of the
  triples, which is how `localeCompare` / `>=` on those strings behave.
* JS objects used as string-keyed dictionaries are association lists
  (`List (κ × α)`); insertion order of keys is list order, matching the
  enumeration order of `Object.entries` / `Object.values` for such keys.
* A JS `Promise` that is driven to completion either resolves with a value
  (`FetchOutcome.resolved`) or is never settled on some code path
  (`FetchOutcome.hung`).
-/

/-- Date (the `YYYY-MM-DD` part of an ISO timestamp). -/
structure Ymd where
  y : ℕ
  m : ℕ
  d : ℕ
deriving DecidableEq

/-- Lexicographic order on dates; agrees with JS string `>=` /
`localeCompare` ordering on well-formed `"YYYY-MM-DD"` strings. -/
def Ymd.le (a b : Ymd) : Prop :=
  a.y < b.y ∨ (a.y = b.y ∧ (a.m < b.m ∨ (a.m = b.m ∧ a.d ≤ b.d)))

/-- Strict lexicographic order on dates. -/
def Ymd.lt (a b : Ymd) : Prop :=
  a.y < b.y ∨ (a.y = b.y ∧ (a.m < b.m ∨ (a.m = b.m ∧ a.d < b.d)))

instance (a b : Ymd) : Decidable (Ymd.le a b) := by
  unfold Ymd.le; infer_instance

instance (a b : Ymd) : Decidable (Ymd.lt a b) := by
  unfold Ymd.lt; infer_instance

theorem Ymd.le_total (a b : Ymd) : Ymd.le a b ∨ Ymd.le b a := by
  unfold Ymd.le; omega

theorem Ymd.le_trans {a b c : Ymd} (h1 : Ymd.le a b) (h2 : Ymd.le b c) :
    Ymd.le a c := by
  unfold Ymd.le at *; omega

theorem Ymd.lt_of_le_of_ne {a b : Ymd} (h1 : Ymd.le a b) (h2 : a ≠ b) :
    Ymd.lt a b := by
  obtain ⟨ay, am, ad⟩ := a
  obtain ⟨by_, bm, bd⟩ := b
  unfold Ymd.le at h1
  unfold Ymd.lt
  rw [Ne, Ymd.mk.injEq] at h2
  dsimp only at h1 ⊢
  omega

/-- Bracketing a date between the first and last day of a month pins down
its calendar month (the month-start comparison used for MTD filtering). -/
theorem Ymd.month_bracket {y m dim : ℕ} {x : Ymd} (hd : 1 ≤ x.d)
    (hub : Ymd.le x ⟨y, m, dim⟩) :
    (Ymd.le ⟨y, m, 1⟩ x ↔ (x.y = y ∧ x.m = m)) := by
  obtain ⟨xy, xm, xd⟩ := x
  unfold Ymd.le at hub ⊢
  dsimp only at hd hub ⊢
  omega

section AssocMap

variable {κ : Type} {α : Type} [DecidableEq κ]

/-- First value stored under key `k`, or the default `d`
(JS `m[k] || d` / `m[k] ?? d` for dictionaries with unique keys). -/
def mapGetD (m : List (κ × α)) (k : κ) (d : α) : α :=
  match m with
  | [] => d
  | e :: rest => if e.1 = k then e.2 else mapGetD rest k d

/-- First value stored under key `k` (JS `m[k]`, `undefined` as `none`). -/
def mapFind? (m : List (κ × α)) (k : κ) : Option α :=
  match m with
  | [] => none
  | e :: rest => if e.1 = k then some e.2 else mapFind? rest k

/-- The JS upsert idiom `m[k] = f(m[k] ?? d)`: rewrite the first entry for
`k` in place, or append a fresh entry initialised from the default. -/
def mapUpsert (m : List (κ × α)) (k : κ) (d : α) (f : α → α) : List (κ × α) :=
  match m with
  | [] => [(k, f d)]
  | e :: rest => if e.1 = k then (e.1, f e.2) :: rest else e :: mapUpsert rest k d f

/-- All values stored under key `k`, in list order. -/
def mapValuesAt (m : List (κ × α)) (k : κ) : List α :=
  (m.filter (fun e => e.1 = k)).map (·.2)

theorem mapGetD_upsert (m : List (κ × α)) (k k' : κ) (d : α) (f : α → α) :
    mapGetD (mapUpsert m k d f) k' d =
      if k' = k then f (mapGetD m k d) else mapGetD m k' d := by
  induction m with
  | nil =>
    by_cases h : k' = k
    · subst h; simp [mapUpsert, mapGetD]
    · simp [mapUpsert, mapGetD, h, Ne.symm h]
  | cons e rest ih =>
    by_cases he : e.1 = k
    · subst he
      by_cases h : k' = e.1
      · subst h; simp [mapUpsert, mapGetD]
      · simp [mapUpsert, mapGetD, h, Ne.symm h]
    · by_cases h2 : e.1 = k'
      · subst h2
        simp [mapUpsert, mapGetD, he]
      · simp [mapUpsert, mapGetD, he, h2, ih]

theorem mapFind?_upsert (m : List (κ × α)) (k k' : κ) (d : α) (f : α → α) :
    mapFind? (mapUpsert m k d f) k' =
      if k' = k then some (f ((mapFind? m k).getD d)) else mapFind? m k' := by
  induction m with
  | nil =>
    by_cases h : k' = k
    · subst h; simp [mapUpsert, mapFind?]
    · simp [mapUpsert, mapFind?, h, Ne.symm h]
  | cons e rest ih =>
    by_cases he : e.1 = k
    · subst he
      by_cases h : k' = e.1
      · subst h; simp [mapUpsert, mapFind?]
      · simp [mapUpsert, mapFind?, h, Ne.symm h]
    · by_cases h2 : e.1 = k'
      · subst h2
        simp [mapUpsert, mapFind?, he]
      · simp [mapUpsert, mapFind?, he, h2, ih]

theorem mapGetD_eq_getD_find? (m : List (κ × α)) (k : κ) (d : α) :
    mapGetD m k d = (mapFind? m k).getD d := by
  induction m with
  | nil => simp [mapGetD, mapFind?]
  | cons e rest ih =>
    by_cases h : e.1 = k <;> simp [mapGetD, mapFind?, h, ih]

/-- Keys of the map, in order. -/
def mapKeys (m : List (κ × α)) : List κ := m.map (·.1)

theorem mem_mapKeys_upsert (m : List (κ × α)) (k x : κ) (d : α) (f : α → α) :
    x ∈ mapKeys (mapUpsert m k d f) ↔ x = k ∨ x ∈ mapKeys m := by
  induction m with
  | nil => simp [mapUpsert, mapKeys]
  | cons e rest ih =>
    by_cases he : e.1 = k
    · subst he
      simp only [mapUpsert, if_pos, mapKeys, List.map_cons, List.mem_cons]
      tauto
    · simp only [mapUpsert, if_neg he, mapKeys, List.map_cons, List.mem_cons]
      have ih' : x ∈ mapKeys (mapUpsert rest k d f) ↔ x = k ∨ x ∈ mapKeys rest := ih
      simp only [mapKeys] at ih'
      rw [ih']
      tauto

theorem mapKeys_nodup_upsert (m : List (κ × α)) (k : κ) (d : α) (f : α → α)
    (h : (mapKeys m).Nodup) : (mapKeys (mapUpsert m k d f)).Nodup := by
  induction m with
  | nil => simp [mapUpsert, mapKeys]
  | cons e rest ih =>
    simp only [mapKeys, List.map_cons, List.nodup_cons] at h
    by_cases he : e.1 = k
    · subst he
      simp only [mapUpsert, if_pos, mapKeys, List.map_cons, List.nodup_cons]
      exact ⟨by simpa [mapKeys] using h.1, by simpa [mapKeys] using h.2⟩
    · simp only [mapUpsert, if_neg he, mapKeys, List.map_cons, List.nodup_cons]
      constructor
      · intro hc
        rcases (mem_mapKeys_upsert rest k e.1 d f).mp (by simpa [mapKeys] using hc) with h1 | h1
        · exact he h1
        · exact h.1 (by simpa [mapKeys] using h1)
      · simpa [mapKeys] using ih (by simpa [mapKeys] using h.2)

theorem mapValuesAt_eq_nil_of_not_mem (m : List (κ × α)) (k : κ)
    (h : k ∉ mapKeys m) : mapValuesAt m k = [] := by
  induction m with
  | nil => simp [mapValuesAt]
  | cons e rest ih =>
    simp only [mapKeys, List.map_cons, List.mem_cons] at h
    push_neg at h
    simp only [mapValuesAt, List.filter_cons]
    have : ¬ (e.1 = k) := fun hc => h.1 hc.symm
    simp only [this, decide_eq_true_eq, decide_False]
    simpa [mapValuesAt, mapKeys] using ih (by simpa [mapKeys] using h.2)

theorem mapValuesAt_of_find?_eq_some (m : List (κ × α)) (k : κ) (v : α)
    (hnd : (mapKeys m).Nodup) (h : mapFind? m k = some v) :
    mapValuesAt m k = [v] := by
  induction m with
  | nil => simp [mapFind?] at h
  | cons e rest ih =>
    simp only [mapKeys, List.map_cons, List.nodup_cons] at hnd
    by_cases he : e.1 = k
    · simp only [mapFind?, he, if_pos rfl] at h
      obtain rfl : e.2 = v := by injection h
      have hrest : mapValuesAt rest k = [] := by
        apply mapValuesAt_eq_nil_of_not_mem
        rw [← he]
        exact fun hc => hnd.1 (by simpa [mapKeys] using hc)
      simp [mapValuesAt, List.filter_cons, he] at hrest ⊢
      simpa [mapValuesAt] using hrest
    · simp only [mapFind?, he, if_neg he] at h
      have := ih (by simpa [mapKeys] using hnd.2) h
      simpa [mapValuesAt, List.filter_cons, he] using this

theorem mapValuesAt_of_find?_eq_none (m : List (κ × α)) (k : κ)
    (h : mapFind? m k = none) : mapValuesAt m k = [] := by
  induction m with
  | nil => simp [mapValuesAt]
  | cons e rest ih =>
    by_cases he : e.1 = k
    · simp [mapFind?, he] at h
    · simp only [mapFind?, he, if_neg he] at h
      simpa [mapValuesAt, List.filter_cons, he] using ih h

end AssocMap

section AssocMapFold

variable {κ : Type} {α : Type} [DecidableEq κ]

/-- Folding a page map into an accumulator, one JS upsert per page entry
(the `Object.entries(page).forEach(...)` merge idiom of `server.js`). -/
def mapMergeFold (g : α → α → α) (d : α) (acc p : List (κ × α)) : List (κ × α) :=
  p.foldl (fun a e => mapUpsert a e.1 d (g e.2)) acc

theorem mapGetD_mapMergeFold (g : α → α → α) (d : α) (p : List (κ × α)) :
    ∀ acc k, mapGetD (mapMergeFold g d acc p) k d =
      (mapValuesAt p k).foldl (fun a v => g v a) (mapGetD acc k d) := by
  induction p with
  | nil => intro acc k; simp [mapMergeFold, mapValuesAt]
  | cons e rest ih =>
    intro acc k
    have step : mapMergeFold g d acc (e :: rest) =
        mapMergeFold g d (mapUpsert acc e.1 d (g e.2)) rest := rfl
    rw [step, ih]
    by_cases h : e.1 = k
    · subst h
      simp [mapValuesAt, List.filter_cons, mapGetD_upsert]
    · have : ¬ (k = e.1) := fun hc => h hc.symm
      simp [mapValuesAt, List.filter_cons, mapGetD_upsert, h, this]

theorem foldl_add_eq {M : Type} [AddCommMonoid M] (l : List M) (b : M) :
    l.foldl (fun a v => a + v) b = b + l.sum := by
  induction l generalizing b with
  | nil => simp
  | cons x xs ih => simp [ih, add_assoc]

/-- Merging numeric maps by `m[k] = (m[k] || 0) + v` sums values key-wise. -/
theorem mapGetD_mergeAdd {M : Type} [AddCommMonoid M] (acc p : List (κ × M)) (k : κ) :
    mapGetD (mapMergeFold (fun v old => old + v) 0 acc p) k 0 =
      mapGetD acc k 0 + (mapValuesAt p k).sum := by
  rw [mapGetD_mapMergeFold, foldl_add_eq]

theorem mapGetD_eq_sum_valuesAt {M : Type} [AddCommMonoid M]
    (m : List (κ × M)) (k : κ) (hnd : (mapKeys m).Nodup) :
    mapGetD m k 0 = (mapValuesAt m k).sum := by
  rw [mapGetD_eq_getD_find?]
  cases hf : mapFind? m k with
  | none => simp [mapValuesAt_of_find?_eq_none m k hf]
  | some v => simp [mapValuesAt_of_find?_eq_some m k v hnd hf]

/-- Sum of a numeric projection of all map entries. -/
def entrySum (m : List (κ × α)) (g : α → ℚ) : ℚ :=
  (m.map (fun e => g e.2)).sum

theorem entrySum_upsert (m : List (κ × α)) (k : κ) (d : α) (f : α → α)
    (g : α → ℚ) (hd : g d = 0) :
    entrySum (mapUpsert m k d f) g =
      entrySum m g + (g (f (mapGetD m k d)) - g (mapGetD m k d)) := by
  induction m with
  | nil => simp [entrySum, mapUpsert, mapGetD, hd]
  | cons e rest ih =>
    by_cases he : e.1 = k
    · subst he
      simp only [mapUpsert, if_pos, entrySum, List.map_cons, List.sum_cons, mapGetD]
      ring
    · simp only [mapUpsert, if_neg he, entrySum, List.map_cons, List.sum_cons, mapGetD, if_neg he]
      have := ih
      simp only [entrySum] at this
      rw [this]
      ring

end AssocMapFold

/-- Pricing tiers of the static rate table (`tokenCosts` keys). -/
inductive Tier where
  | haiku
  | sonnet
  | opus
deriving DecidableEq

/-- Per-million-token USD rates of one tier. -/
structure Pricing where
  input : ℚ
  output : ℚ
  cacheRead : ℚ
deriving DecidableEq

/-- The static `tokenCosts` table (`server.js` lines 596-600). -/
def tokenCosts : Tier → Pricing
  | .haiku => ⟨1, 5, 1/10⟩
  | .sonnet => ⟨3, 15, 3/10⟩
  | .opus => ⟨5, 25, 1/2⟩

/-- JS `String.prototype.includes` on the underlying character lists. -/
def jsIncludes (s sub : String) : Bool :=
  decide (List.IsInfix sub.data s.data)

/-- JS `String.prototype.toLowerCase`, character-wise (the model names it
is applied to are plain ASCII). -/
def jsToLower (s : String) : String := ⟨s.data.map Char.toLower⟩

/-- The `resolveModelTier` function (`server.js` lines 606-615):
case-insensitive substring match in priority order opus, sonnet, haiku;
then the current-model badge (`cm`); then haiku.  A `modelName` of `none`
models a missing field; JS also treats `""` as missing, which resolves
identically because no tier name is a substring of `""`. -/
def resolveModelTier (cm : Option Tier) (modelName : Option String) : Tier :=
  match modelName with
  | some mn =>
    let name := jsToLower mn
    if jsIncludes name "opus" then .opus
    else if jsIncludes name "sonnet" then .sonnet
    else if jsIncludes name "haiku" then .haiku
    else match cm with
      | some t => t
      | none => .haiku
  | none =>
    match cm with
    | some t => t
    | none => .haiku

/-- The `calculateCost` function (`server.js` lines 619-627).  The JS
fallbacks `tokenCosts[tier] || tokenCosts['haiku']` (the table is total on
tiers) and `pricing.cacheRead || pricing.input * 0.1` (`0` is the only
falsy rate) are modelled exactly. -/
def calculateCost (cm : Option Tier) (uncachedInputTokens outputTokens : ℕ)
    (modelName : Option String) (cacheReadTokens : ℕ := 0) : ℚ :=
  let tier := resolveModelTier cm modelName
  let pricing := tokenCosts tier
  let inputCost := (uncachedInputTokens : ℚ) / 1000000 * pricing.input
  let cacheCost := (cacheReadTokens : ℚ) / 1000000 *
    (if pricing.cacheRead = 0 then pricing.input * (1/10) else pricing.cacheRead)
  let outputCost := (outputTokens : ℚ) / 1000000 * pricing.output
  inputCost + cacheCost + outputCost

theorem calculateCost_nonneg (cm : Option Tier) (u o : ℕ) (mn : Option String) (c : ℕ) :
    0 ≤ calculateCost cm u o mn c := by
  unfold calculateCost
  have hp : ∀ t : Tier, 0 ≤ (tokenCosts t).input ∧ 0 ≤ (tokenCosts t).output ∧
      0 ≤ (tokenCosts t).cacheRead := by
    intro t; cases t <;> norm_num [tokenCosts]
  obtain ⟨h1, h2, h3⟩ := hp (resolveModelTier cm mn)
  have hcache : (0:ℚ) ≤ (if (tokenCosts (resolveModelTier cm mn)).cacheRead = 0 then
      (tokenCosts (resolveModelTier cm mn)).input * (1/10)
    else (tokenCosts (resolveModelTier cm mn)).cacheRead) := by
    split
    · positivity
    · exact h3
  have hu : (0:ℚ) ≤ (u : ℚ) / 1000000 := by positivity
  have hc : (0:ℚ) ≤ (c : ℚ) / 1000000 := by positivity
  have ho : (0:ℚ) ≤ (o : ℚ) / 1000000 := by positivity
  have := mul_nonneg hu h1
  have := mul_nonneg hc hcache
  have := mul_nonneg ho h2
  dsimp only
  linarith

/-- One element of a bucket's `results` array in the usage-report response
(token fields may be absent; `model` / `api_key_id` may be absent). -/
structure UsageResult where
  uncached_input_tokens : Option ℕ
  cache_read_input_tokens : Option ℕ
  output_tokens : Option ℕ
  model : Option String
  api_key_id : Option String
deriving DecidableEq

/-- One bucket of the usage-report response.  `starting_at` is the date
part of the ISO timestamp (only `split('T')[0]` of it is ever used by the
extractor). -/
structure UsageBucket where
  starting_at : Ymd
  results : Option (List UsageResult)
deriving DecidableEq

/-- A parsed usage-report response body; `data` may be absent, which the
extractor treats as "no usage yet". -/
structure UsageData where
  data : Option (List UsageBucket)
deriving DecidableEq

/-- One entry pushed onto `dailyBreakdown` (lines 685-694). -/
structure BreakEntry where
  date : Ymd
  tokens : ℕ
  cost : ℚ
  uncached_input : ℕ
  cache_read : ℕ
  output : ℕ
  model : Option String
  api_key_id : Option String
deriving DecidableEq

/-- Per-credential accumulator created at line 671. -/
structure AgentRec where
  tokens : ℕ
  cost : ℚ
  dailyCosts : List (Ymd × ℚ)
  modelTokens : List (Tier × ℕ)
  cacheRead : ℕ
  uncachedInput : ℕ
deriving DecidableEq

/-- The freshly-created accumulator `{ tokens: 0, cost: 0, dailyCosts: {},
modelTokens: {}, cacheRead: 0, uncachedInput: 0 }`. -/
def AgentRec.zero : AgentRec := ⟨0, 0, [], [], 0, 0⟩

/-- Extractor state while walking buckets/results. -/
structure ExtractAcc where
  dailyBreakdown : List BreakEntry
  totalTokens : ℕ
  totalCost : ℚ
  perAgent : List (String × AgentRec)
  perModel : List (Tier × ℕ)
deriving DecidableEq

/-- The value returned by `extractDailyBreakdown` (line 717). -/
structure ExtractResult where
  dailyBreakdown : List BreakEntry
  totalTokens : ℕ
  totalCost : ℚ
  perAgent : List (String × AgentRec)
  perModel : List (Tier × ℕ)
  globalCacheRead : ℕ
  globalUncachedInput : ℕ
deriving DecidableEq

/-- Processing of one result of one bucket inside `extractDailyBreakdown`
(`server.js` lines 650-696).  JS treats an `api_key_id` of `""` as absent;
the claims only involve present (`some`) vs absent (`none`) ids. -/
def extractStepResult (cm : Option Tier) (g : Bool) (date : Ymd)
    (s : ExtractAcc) (r : UsageResult) : ExtractAcc :=
  let uncachedInput := r.uncached_input_tokens.getD 0
  let cacheReadInput := r.cache_read_input_tokens.getD 0
  let inputTokens := uncachedInput + cacheReadInput
  let outputTokens := r.output_tokens.getD 0
  let dayTokens := inputTokens + outputTokens
  let dayCost := calculateCost cm uncachedInput outputTokens r.model cacheReadInput
  let modelTier := resolveModelTier cm r.model
  let perModel := mapUpsert s.perModel modelTier 0 (· + dayTokens)
  let perAgent :=
    if g then
      match r.api_key_id with
      | some keyId =>
        mapUpsert s.perAgent keyId AgentRec.zero (fun a =>
          { tokens := a.tokens + dayTokens
            cost := a.cost + dayCost
            modelTokens := mapUpsert a.modelTokens modelTier 0 (· + dayTokens)
            cacheRead := a.cacheRead + cacheReadInput
            uncachedInput := a.uncachedInput + uncachedInput
            dailyCosts := mapUpsert a.dailyCosts date 0 (· + dayCost) })
      | none => s.perAgent
    else s.perAgent
  let entry : BreakEntry :=
    ⟨date, dayTokens, dayCost, uncachedInput, cacheReadInput, outputTokens,
      r.model, r.api_key_id⟩
  let dailyBreakdown :=
    if 0 < dayTokens then s.dailyBreakdown ++ [entry] else s.dailyBreakdown
  { dailyBreakdown := dailyBreakdown
    totalTokens := s.totalTokens + dayTokens
    totalCost := s.totalCost + dayCost
    perAgent := perAgent
    perModel := perModel }

/-- Processing of one bucket: iterate its results when the array is
present (lines 644-698). -/
def extractStepBucket (cm : Option Tier) (g : Bool) (s : ExtractAcc)
    (b : UsageBucket) : ExtractAcc :=
  match b.results with
  | some rs => rs.foldl (extractStepResult cm g b.starting_at) s
  | none => s

/-- The `extractDailyBreakdown` function (`server.js` lines 631-718).
The global cache totals are re-derived from `dailyBreakdown` at the end
(lines 711-715), exactly as in the source. -/
def extractDailyBreakdown (cm : Option Tier) (usageData : UsageData)
    (g : Bool := false) : ExtractResult :=
  let s : ExtractAcc :=
    match usageData.data with
    | some buckets => buckets.foldl (extractStepBucket cm g) ⟨[], 0, 0, [], []⟩
    | none => ⟨[], 0, 0, [], []⟩
  let globalCacheRead := (s.dailyBreakdown.map (·.cache_read)).sum
  let globalUncachedInput := (s.dailyBreakdown.map (·.uncached_input)).sum
  ⟨s.dailyBreakdown, s.totalTokens, s.totalCost, s.perAgent, s.perModel,
    globalCacheRead, globalUncachedInput⟩

/-- Key-wise additive merge of two numeric maps: a copy of `acc` updated by
`m[k] = (m[k] || 0) + v` for every entry of `p` (the spread-then-forEach
and accumulate-across-pages idioms of `server.js`). -/
def mergeAddMap {κ : Type} [DecidableEq κ] {M : Type} [AddCommMonoid M]
    (acc p : List (κ × M)) : List (κ × M) :=
  mapMergeFold (fun v old => old + v) 0 acc p

/-- Merging one page's record for a credential into the accumulated record
(`server.js` lines 924-936). -/
def mergeAgentRec (data a : AgentRec) : AgentRec :=
  { tokens := a.tokens + data.tokens
    cost := a.cost + data.cost
    cacheRead := a.cacheRead + data.cacheRead
    uncachedInput := a.uncachedInput + data.uncachedInput
    dailyCosts := mergeAddMap a.dailyCosts data.dailyCosts
    modelTokens := mergeAddMap a.modelTokens data.modelTokens }

/-- Merging one page's per-agent map into the accumulated map
(`server.js` lines 918-938): for each page entry, create the zero record
if absent, then add all fields. -/
def mergeAgentMaps (acc p : List (String × AgentRec)) : List (String × AgentRec) :=
  mapMergeFold mergeAgentRec AgentRec.zero acc p

/-- One page-level response of the usage-report feed as seen by
`fetchAllTimeCosts`: either a parsed error object (`isRateLimit` marks
`rate_limit_error`) or a data page with its pagination markers.  Transport
errors and unparseable bodies behave like a non-rate-limit error (both
resolve `null` without touching the rate-limit state). -/
inductive PageResp where
  | err (isRateLimit : Bool)
  | ok (data : UsageData) (hasMore : Bool) (nextPage : Option String)
deriving DecidableEq

/-- Accumulator threaded through `fetchAllTimeCosts` recursion
(`accumulatedPerAgent`, `accumulatedPerModel`, `accumulatedBreakdown`,
`accumulatedCacheRead`, `accumulatedUncached`). -/
structure FetchAcc where
  perAgent : List (String × AgentRec)
  perModel : List (Tier × ℕ)
  breakdown : List BreakEntry
  cacheRead : ℕ
  uncached : ℕ
deriving DecidableEq

/-- Observable fate of a driven-to-completion JS promise: it either
resolves (possibly with `null`) or is never settled. -/
inductive FetchOutcome (α : Type) where
  | resolved : Option α → FetchOutcome α
  | hung : FetchOutcome α
deriving DecidableEq

/-- JS truthiness of an optional string (`undefined`, `null` and `""` are
falsy). -/
def jsTruthyStr (s : Option String) : Bool :=
  match s with
  | none => false
  | some str => !(str == "")

/-- The `fetchAllTimeCosts` function (`server.js` lines 831-1023) run
against a script of sequential page responses; the second component is the
number of `rate_limit_error` responses observed (each of which runs lines
896-897).  The resolved value renames `totalCost` to `cost` in the source;
the field list is otherwise identical to the extractor output.  Note the
`.then((nextPageData) => { if (nextPageData) { ... } })` at lines 974-994:
when the recursive page fetch resolves `null`, no `resolve` is ever called
and the outer promise hangs. -/
def fetchAllTimeCosts (cm : Option Tier) (g : Bool) :
    List PageResp → FetchAcc → FetchOutcome ExtractResult × ℕ
  | [], _ => (.resolved none, 0)
  | .err rl :: _, _ => (.resolved none, if rl then 1 else 0)
  | .ok d hasMore nextPage :: rest, acc =>
    let e := extractDailyBreakdown cm d g
    let mergedPerAgent := if g then mergeAgentMaps acc.perAgent e.perAgent else acc.perAgent
    let mergedPerModel := mergeAddMap acc.perModel e.perModel
    let mergedBreakdown := acc.breakdown ++ e.dailyBreakdown
    let mergedCacheRead := acc.cacheRead + e.globalCacheRead
    let mergedUncached := acc.uncached + e.globalUncachedInput
    if hasMore && jsTruthyStr nextPage then
      match fetchAllTimeCosts cm g rest
        ⟨mergedPerAgent, mergedPerModel, mergedBreakdown, mergedCacheRead, mergedUncached⟩ with
      | (.resolved (some r), h) =>
        (.resolved (some ⟨r.dailyBreakdown, e.totalTokens + r.totalTokens,
          e.totalCost + r.totalCost, r.perAgent, r.perModel,
          if r.globalCacheRead = 0 then mergedCacheRead else r.globalCacheRead,
          if r.globalUncachedInput = 0 then mergedUncached else r.globalUncachedInput⟩), h)
      | (.resolved none, h) => (.hung, h)
      | (.hung, h) => (.hung, h)
    else
      (.resolved (some ⟨mergedBreakdown, e.totalTokens, e.totalCost,
        mergedPerAgent, mergedPerModel, mergedCacheRead, mergedUncached⟩), 0)

/-- The empty accumulator of the initial `fetchAllTimeCosts(null, g)` call. -/
def FetchAcc.empty : FetchAcc := ⟨[], [], [], 0, 0⟩

/-- A dated cost entry (`{date, cost}`), used both for the Cost-Report-API
daily breakdown and for the projection series. -/
structure DayCost where
  date : Ymd
  cost : ℚ
deriving DecidableEq

/-- The value resolved by `fetchAllTimeCostAPI` (lines 1131-1134). -/
structure CostApiResult where
  actualCost : ℚ
  dailyBreakdown : List DayCost
deriving DecidableEq

/-- The rate-limit state (`rateLimitHitCount`, `rateLimitBackoffMs`,
lines 581-582). -/
structure RateLimitState where
  hitCount : ℕ
  backoffMs : ℤ
deriving DecidableEq

/-- One throttling response (lines 786-787 / 896-897 / 1085-1086):
increment the hit counter and set the backoff to
`min(5*60*1000, 60*1000*hitCount)`. -/
def rateLimitHit (s : RateLimitState) : RateLimitState :=
  ⟨s.hitCount + 1, min (5 * 60 * 1000) ((60 * 1000 * (s.hitCount + 1) : ℕ) : ℤ)⟩

/-- Apply `n` throttling responses in sequence (the single-threaded JS
event loop serialises them). -/
def applyHits (s : RateLimitState) : ℕ → RateLimitState
  | 0 => s
  | n + 1 => rateLimitHit (applyHits s n)

/-- Provenance of the published all-time cost (`'cost_api'` at line 1552 /
`'usage_api'` at line 1556). -/
inductive CostSource where
  | costApi
  | usageApi
deriving DecidableEq

/-- One published per-agent summary (lines 1596-1605). -/
structure AgentSummary where
  name : String
  color : String
  today : ℚ
  allTime : ℚ
  estimatedDaily : ℚ
  todayTokens : ℕ
  models : List (Tier × ℤ)
  cacheHitRate : ℤ
deriving DecidableEq

/-- One configured agent record (`agentsConfig.agents[]`). -/
structure Agent where
  name : String
  slug : Option String
  color : Option String
  apiKeyId : String
deriving DecidableEq

/-- The published token-metrics snapshot: the fields of the module-level
`tokenMetrics` object that `updateTokenMetrics` reads or writes.  Fields
that are only ever assigned conditionally (`perAgent`, `modelBreakdown`,
`cacheHitRate`, `allTime.total.source`) are `Option`s, `none` meaning the
field was never set.  `lastUpdated` is an abstract clock tick. -/
structure Snapshot where
  todayTokens : ℕ
  todayCost : ℚ
  allTimeCost : ℚ
  allTimeSource : Option CostSource
  perAgent : Option (List (String × AgentSummary))
  modelBreakdown : Option (List (Tier × ℤ))
  cacheHitRate : Option ℤ
  dailyCostHistory : List DayCost
  projectedMonthly : ℚ
  weekOverWeek : ℚ
  mtdCost : ℚ
  avgDaily7 : ℚ
  costAlertThreshold : Option ℚ
  thresholdExceeded : Bool
  lastUpdated : ℕ
deriving DecidableEq

/-- Ambient configuration and clock read by `updateTokenMetrics`:
the configured agents, the `AGENT_CONFIG` colour table, the cost alert
threshold, and the current UTC date / timestamp. -/
structure Env where
  agents : List Agent
  agentConfigColors : List (String × String)
  threshold : Option ℚ
  nowDate : Ymd
  nowTick : ℕ
deriving DecidableEq

/-- JS `x || y` for an optional string `x` (absent and `""` are falsy). -/
def jsStrOr (x : Option String) (y : String) : String :=
  match x with
  | some s => if s = "" then y else s
  | none => y

/-- JS `arr.slice(-n)`: the last `n` elements (all of them if shorter). -/
def sliceLast {α : Type} (n : ℕ) (l : List α) : List α :=
  l.drop (l.length - n)

/-- JS `arr.slice(-14, -7)` (with JS clamping of negative indices). -/
def sliceNeg14Neg7 {α : Type} (l : List α) : List α :=
  (l.drop (l.length - 14)).take ((l.length - 7) - (l.length - 14))

/-- Number of days in the (1-based) month `m` of year `y`; this is what
`new Date(y, m, 0).getUTCDate()` yields on a UTC-clock host (line 1688). -/
def daysInMonth (y m : ℕ) : ℕ :=
  if m = 2 then (if y % 4 = 0 ∧ (y % 100 ≠ 0 ∨ y % 400 = 0) then 29 else 28)
  else if m = 4 ∨ m = 6 ∨ m = 9 ∨ m = 11 then 30
  else 31

/-- Plain assignment `m[k] = v` on a JS dictionary. -/
def mapSet {κ : Type} [DecidableEq κ] {α : Type} (m : List (κ × α)) (k : κ) (v : α) :
    List (κ × α) :=
  mapUpsert m k v (fun _ => v)

/-- Lines 1564-1606: one agent's entry of the published per-agent
breakdown. -/
def agentSummaryFor (cfgColors : List (String × String))
    (t a : Option ExtractResult) (ag : Agent) : String × AgentSummary :=
  let keyId := ag.apiKeyId
  let todayAgentData : Option AgentRec := t.bind (fun d => mapFind? d.perAgent keyId)
  let allTimeAgentData : Option AgentRec := a.bind (fun d => mapFind? d.perAgent keyId)
  let dailyCosts := match allTimeAgentData with
    | some r => r.dailyCosts
    | none => []
  let costValues := dailyCosts.map (·.2)
  let daysCount : ℕ := min costValues.length 7
  let recentCosts := costValues.drop (costValues.length - daysCount)
  let estimatedDaily := if 0 < daysCount then recentCosts.sum / (daysCount : ℚ) else 0
  let agentModelTokens := mergeAddMap
    (match allTimeAgentData with | some r => r.modelTokens | none => [])
    (match todayAgentData with | some r => r.modelTokens | none => [])
  let agentTotalTokens := (agentModelTokens.map (·.2)).sum
  let models := agentModelTokens.map (fun e =>
    (e.1, if 0 < agentTotalTokens then round ((e.2 : ℚ) / (agentTotalTokens : ℚ) * 100) else 0))
  let agentCacheRead : ℕ := (match allTimeAgentData with | some r => r.cacheRead | none => 0)
    + (match todayAgentData with | some r => r.cacheRead | none => 0)
  let agentUncached : ℕ := (match allTimeAgentData with | some r => r.uncachedInput | none => 0)
    + (match todayAgentData with | some r => r.uncachedInput | none => 0)
  let totalInput := agentCacheRead + agentUncached
  let hitRate : ℤ :=
    if 0 < totalInput then round ((agentCacheRead : ℚ) / (totalInput : ℚ) * 100) else 0
  let slug := jsStrOr ag.slug ag.name.toLower
  (slug,
    { name := ag.name
      color := jsStrOr ag.color (jsStrOr (mapFind? cfgColors slug) "#007acc")
      today := (todayAgentData.map (·.cost)).getD 0
      allTime := (allTimeAgentData.map (·.cost)).getD 0 + (todayAgentData.map (·.cost)).getD 0
      estimatedDaily := estimatedDaily
      todayTokens := (todayAgentData.map (·.tokens)).getD 0
      models := models
      cacheHitRate := hitRate })

/-- Lines 1642-1661: assemble the per-date cost map — Cost-API breakdown
when present, else the usage-API breakdown, then always today's live
breakdown on top. -/
def dailyCostMapOf (t a : Option ExtractResult) (c : Option CostApiResult) :
    List (Ymd × ℚ) :=
  let m1 : List (Ymd × ℚ) :=
    match c with
    | some cd => mergeAddMap [] (cd.dailyBreakdown.map (fun e => (e.date, e.cost)))
    | none => mergeAddMap []
        ((match a with | some ad => ad.dailyBreakdown | none => ([] : List BreakEntry)).map
          (fun (e : BreakEntry) => (e.date, e.cost)))
  mergeAddMap m1
    ((match t with | some td => td.dailyBreakdown | none => ([] : List BreakEntry)).map
      (fun (e : BreakEntry) => (e.date, e.cost)))

/-- Date order on cost entries (`a.date.localeCompare(b.date)` ascending
on well-formed date strings). -/
def dayLe (x y : DayCost) : Prop := Ymd.le x.date y.date

instance : DecidableRel dayLe := fun x y => by unfold dayLe; infer_instance

instance : IsTotal DayCost dayLe := ⟨fun a b => Ymd.le_total a.date b.date⟩

instance : IsTrans DayCost dayLe := ⟨fun _ _ _ h1 h2 => Ymd.le_trans h1 h2⟩

/-- Lines 1664-1666: the date-ascending list of `{date, cost}` entries of
the daily cost map (JS `.sort` is stable and the keys are distinct, so any
comparison sort returns this unique order). -/
def sortedDaysOf (t a : Option ExtractResult) (c : Option CostApiResult) :
    List DayCost :=
  List.insertionSort dayLe ((dailyCostMapOf t a c).map (fun e => ⟨e.1, e.2⟩))

/-- Lines 1672-1676: mean of the last (up to) 7 entries. -/
def avgDaily7Of (sortedDays : List DayCost) : ℚ :=
  let last7 := sliceLast 7 sortedDays
  if 0 < last7.length then (last7.map (·.cost)).sum / (last7.length : ℚ) else 0

/-- Lines 1673-1679: mean of the 7 entries before the trailing window. -/
def avgPrior7Of (sortedDays : List DayCost) : ℚ :=
  let prior7 := sliceNeg14Neg7 sortedDays
  if 0 < prior7.length then (prior7.map (·.cost)).sum / (prior7.length : ℚ) else 0

/-- Lines 1683-1686: sum of entries dated on or after the first of the
current month (string comparison against `"YYYY-MM-01"`). -/
def mtdCostOf (nowDate : Ymd) (sortedDays : List DayCost) : ℚ :=
  let monthStart : Ymd := ⟨nowDate.y, nowDate.m, 1⟩
  ((sortedDays.filter (fun d => decide (Ymd.le monthStart d.date))).map (·.cost)).sum

/-- Result of one `updateTokenMetrics` invocation: the rate-limit state,
the published snapshot, and whether the network fetches ran at all. -/
structure CycleResult where
  state : RateLimitState
  snapshot : Snapshot
  ranFetches : Bool
deriving DecidableEq

/-- The `updateTokenMetrics` cycle (`server.js` lines 1520-1724).  The
outcomes of the three concurrently-awaited fetches are inputs
(`todaysData`, `allTimeCosts`, `costApiData`), and `fetchHits` is the
number of throttling responses those fetches observed before the cycle's
end-of-cycle reset check at lines 1704-1708 runs. -/
def updateTokenMetrics (st : RateLimitState) (fetchHits : ℕ)
    (todaysData allTimeCosts : Option ExtractResult)
    (costApiData : Option CostApiResult) (snap : Snapshot) (env : Env) :
    CycleResult :=
  if 0 < st.backoffMs then
    ⟨⟨st.hitCount, st.backoffMs - 5000⟩, snap, false⟩
  else
    let stAfter := applyHits st fetchHits
    let todayPart : ℕ × ℚ :=
      match todaysData with
      | some d => (d.totalTokens, d.totalCost)
      | none => (snap.todayTokens, snap.todayCost)
    let allTimePart : ℚ × Option CostSource :=
      match costApiData with
      | some cd => (cd.actualCost, some .costApi)
      | none =>
        match allTimeCosts with
        | some ad => (ad.totalCost, some .usageApi)
        | none => (snap.allTimeCost, snap.allTimeSource)
    let hasAgents := decide (env.agents ≠ [])
    let perAgentNew : Option (List (String × AgentSummary)) :=
      if hasAgents && (todaysData.isSome || allTimeCosts.isSome) then
        some (env.agents.foldl (fun acc ag =>
          let p := agentSummaryFor env.agentConfigColors todaysData allTimeCosts ag
          mapSet acc p.1 p.2) [])
      else snap.perAgent
    let globalModelTokens := mergeAddMap
      (match allTimeCosts with | some r => r.perModel | none => [])
      (match todaysData with | some r => r.perModel | none => [])
    let globalTotalTokens := (globalModelTokens.map (·.2)).sum
    let modelBreakdownNew :=
      if 0 < globalTotalTokens then
        some (globalModelTokens.map (fun e =>
          (e.1, round ((e.2 : ℚ) / (globalTotalTokens : ℚ) * 100))))
      else snap.modelBreakdown
    let globalCR : ℕ := (match allTimeCosts with | some r => r.globalCacheRead | none => 0)
      + (match todaysData with | some r => r.globalCacheRead | none => 0)
    let globalUI : ℕ := (match allTimeCosts with | some r => r.globalUncachedInput | none => 0)
      + (match todaysData with | some r => r.globalUncachedInput | none => 0)
    let globalTotalInput := globalCR + globalUI
    let cacheHitRateNew :=
      if 0 < globalTotalInput then
        some (round ((globalCR : ℚ) / (globalTotalInput : ℚ) * 100))
      else snap.cacheHitRate
    let sortedDays := sortedDaysOf todaysData allTimeCosts costApiData
    let dailyCostHistory := sliceLast 30 sortedDays
    let avgDaily7 := avgDaily7Of sortedDays
    let avgPrior7 := avgPrior7Of sortedDays
    let mtdCost := mtdCostOf env.nowDate sortedDays
    let daysRemaining := daysInMonth env.nowDate.y env.nowDate.m - env.nowDate.d
    let projectedMonthly := mtdCost + avgDaily7 * (daysRemaining : ℚ)
    let weekOverWeek :=
      if 0 < avgPrior7 then (avgDaily7 - avgPrior7) / avgPrior7 * 100 else 0
    let thresholdExceeded :=
      match env.threshold with
      | some thr => decide (thr < projectedMonthly)
      | none => false
    let finalState :=
      if todaysData.isSome && (allTimeCosts.isSome || costApiData.isSome) then
        (⟨0, 0⟩ : RateLimitState)
      else stAfter
    ⟨finalState,
      { todayTokens := todayPart.1
        todayCost := todayPart.2
        allTimeCost := allTimePart.1
        allTimeSource := allTimePart.2
        perAgent := perAgentNew
        modelBreakdown := modelBreakdownNew
        cacheHitRate := cacheHitRateNew
        dailyCostHistory := dailyCostHistory
        projectedMonthly := projectedMonthly
        weekOverWeek := weekOverWeek
        mtdCost := mtdCost
        avgDaily7 := avgDaily7
        costAlertThreshold := env.threshold
        thresholdExceeded := thresholdExceeded
        lastUpdated := env.nowTick },
      true⟩

/-- The interval of `setInterval(updateTokenMetrics, 5 * 60 * 1000)`
(`server.js` line 1802). -/
def tokenMetricsIntervalMs : ℤ := 5 * 60 * 1000

/-- The amount actually subtracted from the backoff on a skipped cycle
(`server.js` line 1523). -/
def backoffDecrementMs : ℤ := 5000

/-- Fold invariant helper: a property preserved by every step taken from
the list is preserved by the whole fold. -/
theorem foldlPreserveMem {σ β : Type} (P : σ → Prop) (f : σ → β → σ) :
    ∀ (l : List β), (∀ s b, b ∈ l → P s → P (f s b)) → ∀ s, P s → P (l.foldl f s)
  | [], _, _, hs => hs
  | b :: bs, h, s, hs => by
    apply foldlPreserveMem P f bs
    · intro s' b' hb' hs'
      exact h s' b' (List.mem_cons_of_mem _ hb') hs'
    · exact h s b (List.mem_cons_self _ _) hs

/-- In the static rate table every tier has a non-zero cache-read rate, so
the `pricing.cacheRead || pricing.input * 0.1` fallback always takes the
configured rate. -/
theorem tokenCosts_cacheRead_if (t : Tier) :
    (if (tokenCosts t).cacheRead = 0 then (tokenCosts t).input * (1/10)
     else (tokenCosts t).cacheRead) = (tokenCosts t).cacheRead := by
  cases t <;> norm_num [tokenCosts]

/-- C6: for all non-negative token counts, `calculateCost` equals
`uncachedInput/1e6 * tier.input + cacheRead/1e6 * tier.cacheRead +
output/1e6 * tier.output` for the resolved tier — cache-read tokens are
priced at the discounted cache-read rate, never the full input rate — and
one million uncached haiku input tokens with no output and no cache reads
cost exactly the haiku input rate. -/
theorem calculateCost_formula (cm : Option Tier) (u o c : ℕ) (mn : Option String) :
    calculateCost cm u o mn c =
      (u : ℚ) / 1000000 * (tokenCosts (resolveModelTier cm mn)).input
      + (c : ℚ) / 1000000 * (tokenCosts (resolveModelTier cm mn)).cacheRead
      + (o : ℚ) / 1000000 * (tokenCosts (resolveModelTier cm mn)).output
    ∧ calculateCost none 1000000 0 (some "haiku") 0 = (tokenCosts Tier.haiku).input := by
  constructor
  · simp only [calculateCost, tokenCosts_cacheRead_if]
  · have hres : resolveModelTier none (some "haiku") = Tier.haiku := by decide
    simp only [calculateCost, tokenCosts_cacheRead_if, hres]
    norm_num [tokenCosts]

/-- Replace the absent token-count fields of one result by explicit
zeros. -/
def fillZerosResult (r : UsageResult) : UsageResult :=
  { r with
    uncached_input_tokens := some (r.uncached_input_tokens.getD 0)
    cache_read_input_tokens := some (r.cache_read_input_tokens.getD 0)
    output_tokens := some (r.output_tokens.getD 0) }

/-- Replace all absent token-count fields of a usage response by explicit
zeros. -/
def fillZeros (u : UsageData) : UsageData :=
  ⟨u.data.map (fun bs => bs.map (fun b =>
    ⟨b.starting_at, b.results.map (fun rs => rs.map fillZerosResult)⟩))⟩

theorem extractStepResult_fillZeros (cm : Option Tier) (g : Bool) (dt : Ymd)
    (s : ExtractAcc) (r : UsageResult) :
    extractStepResult cm g dt s (fillZerosResult r) = extractStepResult cm g dt s r := by
  simp [extractStepResult, fillZerosResult]

theorem extractStepBucket_fillZeros (cm : Option Tier) (g : Bool)
    (s : ExtractAcc) (b : UsageBucket) :
    extractStepBucket cm g s
      ⟨b.starting_at, b.results.map (fun rs => rs.map fillZerosResult)⟩ =
    extractStepBucket cm g s b := by
  cases hr : b.results with
  | none => simp [extractStepBucket, hr]
  | some rs =>
    simp only [extractStepBucket, hr, Option.map_some', List.foldl_map]
    simp only [extractStepResult_fillZeros]

/-- C10: the extractor treats an absent `uncached_input_tokens`,
`cache_read_input_tokens` or `output_tokens` field exactly as `0` — the
result of extraction is unchanged when absent fields are replaced by
explicit zeros — and it is total with a finite, non-negative rational
total cost (there is no input on which it throws or produces `NaN`). -/
theorem extract_absent_token_fields_are_zero (cm : Option Tier) (u : UsageData) (g : Bool) :
    extractDailyBreakdown cm (fillZeros u) g = extractDailyBreakdown cm u g
    ∧ 0 ≤ (extractDailyBreakdown cm u g).totalCost := by
  constructor
  · cases hd : u.data with
    | none => simp [extractDailyBreakdown, fillZeros, hd]
    | some bs =>
      simp only [extractDailyBreakdown, fillZeros, hd, Option.map_some', List.foldl_map]
      simp only [extractStepBucket_fillZeros]
  · have hacc : ∀ (bs : List UsageBucket) (s : ExtractAcc), 0 ≤ s.totalCost →
        0 ≤ (bs.foldl (extractStepBucket cm g) s).totalCost := by
      intro bs
      apply foldlPreserveMem (fun (s : ExtractAcc) => 0 ≤ s.totalCost)
      intro s b _ hs
      cases hr : b.results with
      | none => simpa [extractStepBucket, hr] using hs
      | some rs =>
        simp only [extractStepBucket, hr]
        apply foldlPreserveMem (fun (s : ExtractAcc) => 0 ≤ s.totalCost)
        · intro s' r _ hs'
          simp only [extractStepResult]
          have := calculateCost_nonneg cm (r.uncached_input_tokens.getD 0)
            (r.output_tokens.getD 0) r.model (r.cache_read_input_tokens.getD 0)
          linarith
        · exact hs
    cases hd : u.data with
    | none => simp [extractDailyBreakdown, hd]
    | some bs =>
      simp only [extractDailyBreakdown, hd]
      exact hacc bs ⟨[], 0, 0, [], []⟩ (by norm_num)

/-- Sum of the per-credential `cost` fields of a per-agent map
(`Σ perAgent[*].cost`). -/
def perAgentCostSum (m : List (String × AgentRec)) : ℚ :=
  entrySum m (fun a => a.cost)

theorem perAgentCostSum_step (cm : Option Tier) (dt : Ymd) (s : ExtractAcc)
    (r : UsageResult) (hkey : r.api_key_id.isSome)
    (hinv : perAgentCostSum s.perAgent = s.totalCost) :
    perAgentCostSum (extractStepResult cm true dt s r).perAgent =
      (extractStepResult cm true dt s r).totalCost := by
  obtain ⟨keyId, hk⟩ := Option.isSome_iff_exists.mp hkey
  simp only [extractStepResult, hk, if_true]
  unfold perAgentCostSum at hinv ⊢
  rw [entrySum_upsert _ _ _ _ _ (by rfl)]
  rw [hinv]
  dsimp only
  ring

/-- C5: when every result of a usage response carries a credential id and
extraction is credential-grouped, the per-credential cost map sums to
exactly the global total cost — both accumulate the same per-result cost
formula, so the claim's 1e-6 relative tolerance is met with exact
rational equality. -/
theorem extract_perAgent_cost_sum (cm : Option Tier) (u : UsageData)
    (hk : ∀ b ∈ u.data.getD [], ∀ r ∈ b.results.getD [], r.api_key_id.isSome) :
    perAgentCostSum (extractDailyBreakdown cm u true).perAgent =
      (extractDailyBreakdown cm u true).totalCost := by
  cases hd : u.data with
  | none => simp [extractDailyBreakdown, hd, perAgentCostSum, entrySum]
  | some bs =>
    rw [hd] at hk
    simp only [Option.getD_some] at hk
    simp only [extractDailyBreakdown, hd]
    refine foldlPreserveMem
      (fun (s : ExtractAcc) => perAgentCostSum s.perAgent = s.totalCost)
      (extractStepBucket cm true) bs ?_ _ ?_
    · intro s b hb hs
      cases hr : b.results with
      | none => simpa [extractStepBucket, hr] using hs
      | some rs =>
        have hk' : ∀ r ∈ rs, r.api_key_id.isSome := by
          have hb' := hk b hb
          rw [hr] at hb'
          simpa using hb'
        simp only [extractStepBucket, hr]
        refine foldlPreserveMem
          (fun (s : ExtractAcc) => perAgentCostSum s.perAgent = s.totalCost)
          (extractStepResult cm true b.starting_at) rs ?_ _ hs
        intro s' r hrr hs'
        exact perAgentCostSum_step cm b.starting_at s' r (hk' r hrr) hs'
    · simp [perAgentCostSum, entrySum]

/-- A concrete two-credential usage response. -/
def uC5 : UsageData :=
  ⟨some [⟨⟨2026, 1, 10⟩, some
    [⟨some 100, some 50, some 20, some "claude-sonnet-4", some "key_a"⟩,
     ⟨some 10, none, some 5, none, some "key_b"⟩]⟩]⟩

/-- Witness for C5 at a concrete two-credential response. -/
theorem extract_perAgent_cost_sum_witness :
    (∀ b ∈ uC5.data.getD [], ∀ r ∈ b.results.getD [], r.api_key_id.isSome)
    ∧ perAgentCostSum (extractDailyBreakdown none uC5 true).perAgent =
      (extractDailyBreakdown none uC5 true).totalCost :=
  ⟨by decide, extract_perAgent_cost_sum none uC5 (by decide)⟩

/-- A blank snapshot (the shape of the initial `tokenMetrics` object). -/
def snapZero : Snapshot :=
  ⟨0, 0, 0, none, none, none, none, [], 0, 0, 0, 0, none, false, 0⟩

/-- A minimal environment: no agents, no threshold, clock at 2026-03-21. -/
def envZero : Env := ⟨[], [], none, ⟨2026, 3, 21⟩, 0⟩

/-- An all-zero fetch result (a successful fetch that saw no usage). -/
def emptyFetch : ExtractResult := ⟨[], 0, 0, [], [], 0, 0⟩

/-- C1 counterexample: a PARTIAL success — today's fetch and the all-time
token estimate return non-null data while the actual-cost fetch returns
null — still resets the rate-limit state, because line 1704 tests
`todaysData && (allTimeCosts || costApiData)`, not "all three non-null".
Under the claim the counter would have stayed at 3. -/
theorem updateTokenMetrics_partial_reset_counterexample :
    (updateTokenMetrics ⟨3, 0⟩ 0 (some emptyFetch) (some emptyFetch) none
      snapZero envZero).state = ⟨0, 0⟩
    ∧ (3 : ℕ) ≠ 0 := by
  constructor
  · decide
  · decide

/-- C1 (amended): in a cycle that runs its fetches, the rate-limit state
is reset to `hitCount = 0`, `backoffRemainingMs = 0` — regardless of prior
values — exactly when today's fetch returned non-null data and at least
one of the all-time token-estimate and actual-cost fetches did; when
today's fetch fails or both all-time sources fail, no reset happens and
the state keeps the hits accumulated during the cycle. -/
theorem updateTokenMetrics_reset_rule (st : RateLimitState) (hits : ℕ)
    (t a : Option ExtractResult) (c : Option CostApiResult)
    (snap : Snapshot) (env : Env) (hrun : st.backoffMs ≤ 0) :
    (updateTokenMetrics st hits t a c snap env).state =
      if t.isSome && (a.isSome || c.isSome) then ⟨0, 0⟩ else applyHits st hits := by
  unfold updateTokenMetrics
  rw [if_neg (by omega)]

/-- Witness for C1 at concrete inputs: a cycle with two throttling hits
and only the actual-cost fetch succeeding does not reset. -/
theorem updateTokenMetrics_reset_rule_witness :
    ((⟨4, 0⟩ : RateLimitState).backoffMs ≤ 0)
    ∧ (updateTokenMetrics ⟨4, 0⟩ 2 none none (some ⟨5, []⟩) snapZero envZero).state =
        if (none : Option ExtractResult).isSome
            && ((none : Option ExtractResult).isSome || (some (⟨5, []⟩ : CostApiResult)).isSome)
          then ⟨0, 0⟩ else applyHits ⟨4, 0⟩ 2 :=
  ⟨by decide,
   updateTokenMetrics_reset_rule ⟨4, 0⟩ 2 none none (some ⟨5, []⟩) snapZero envZero (by decide)⟩

/-- A snapshot with published history, used to exhibit overwriting. -/
def snapC2 : Snapshot :=
  ⟨5, 2, 7, some CostSource.usageApi, none, none, none,
    [⟨⟨2026, 1, 1⟩, 10⟩], 3, 4, 5, 6, none, false, 9⟩

/-- C2 counterexample: a cycle in which all three fetches fail (resolve
null) does not leave the previously published snapshot untouched — the
projection fields are recomputed from the now-empty cost map (the
non-empty `dailyCostHistory` becomes empty) and `lastUpdated` advances. -/
theorem updateTokenMetrics_failed_cycle_counterexample :
    (updateTokenMetrics ⟨0, 0⟩ 0 none none none snapC2 envZero).snapshot ≠ snapC2 := by
  decide

theorem sortedDaysOf_none : sortedDaysOf none none none = [] := rfl

theorem mergeAddMap_nil {κ : Type} [DecidableEq κ] {M : Type} [AddCommMonoid M]
    (acc : List (κ × M)) : mergeAddMap acc [] = acc := rfl

/-- C2 (amended): the snapshot is patched field by field, never replaced
wholesale, and a running cycle always rewrites part of it: with every
fetch null, `today`, `allTime` (cost and provenance), `perAgent`,
`modelBreakdown` and `cacheHitRate` keep their previous values, while
`dailyCostHistory`, `mtdCost`, `avgDaily7`, `projectedMonthly` and
`lastUpdated` are recomputed from the empty cost map and overwritten.
(Only a skipped backoff cycle leaves the snapshot untouched — the subject
of the backoff rule.) -/
theorem updateTokenMetrics_patch_semantics (st : RateLimitState) (hits : ℕ)
    (snap : Snapshot) (env : Env) (hrun : st.backoffMs ≤ 0) :
    (updateTokenMetrics st hits none none none snap env).snapshot.todayTokens = snap.todayTokens
    ∧ (updateTokenMetrics st hits none none none snap env).snapshot.todayCost = snap.todayCost
    ∧ (updateTokenMetrics st hits none none none snap env).snapshot.allTimeCost = snap.allTimeCost
    ∧ (updateTokenMetrics st hits none none none snap env).snapshot.allTimeSource = snap.allTimeSource
    ∧ (updateTokenMetrics st hits none none none snap env).snapshot.perAgent = snap.perAgent
    ∧ (updateTokenMetrics st hits none none none snap env).snapshot.modelBreakdown = snap.modelBreakdown
    ∧ (updateTokenMetrics st hits none none none snap env).snapshot.cacheHitRate = snap.cacheHitRate
    ∧ (updateTokenMetrics st hits none none none snap env).snapshot.dailyCostHistory = []
    ∧ (updateTokenMetrics st hits none none none snap env).snapshot.mtdCost = 0
    ∧ (updateTokenMetrics st hits none none none snap env).snapshot.avgDaily7 = 0
    ∧ (updateTokenMetrics st hits none none none snap env).snapshot.projectedMonthly = 0
    ∧ (updateTokenMetrics st hits none none none snap env).snapshot.lastUpdated = env.nowTick := by
  unfold updateTokenMetrics
  rw [if_neg (by omega)]
  simp only [sortedDaysOf_none]
  simp [mtdCostOf, avgDaily7Of, sliceLast, mergeAddMap_nil]

/-- Witness for C2 at concrete inputs. -/
theorem updateTokenMetrics_patch_semantics_witness :
    ((⟨2, 0⟩ : RateLimitState).backoffMs ≤ 0)
    ∧ (updateTokenMetrics ⟨2, 0⟩ 0 none none none snapC2 envZero).snapshot.dailyCostHistory = []
    ∧ (updateTokenMetrics ⟨2, 0⟩ 0 none none none snapC2 envZero).snapshot.perAgent = snapC2.perAgent :=
  ⟨by decide,
   (updateTokenMetrics_patch_semantics ⟨2, 0⟩ 0 snapC2 envZero (by decide)).2.2.2.2.2.2.2.1,
   (updateTokenMetrics_patch_semantics ⟨2, 0⟩ 0 snapC2 envZero (by decide)).2.2.2.2.1⟩

/-- C3 counterexample: with 60000 ms of backoff pending, one skipped cycle
leaves 55000 ms — the decrement is the fixed 5000 ms of line 1523, not the
cycle's own 5-minute interval (line 1802), which would have exhausted the
backoff. -/
theorem updateTokenMetrics_backoff_decrement_counterexample :
    (updateTokenMetrics ⟨1, 60000⟩ 0 none none none snapZero envZero).state.backoffMs = 55000
    ∧ (55000 : ℤ) ≠ 60000 - tokenMetricsIntervalMs
    ∧ backoffDecrementMs ≠ tokenMetricsIntervalMs := by
  refine ⟨by decide, by decide, by decide⟩

/-- C3 (amended): a scheduled cycle that begins with
`backoffRemainingMs > 0` performs no network fetches and serves the
previous snapshot unchanged, and decrements the backoff by the fixed
5000 ms constant of line 1523 — not by the cycle's own 5-minute
interval. -/
theorem updateTokenMetrics_backoff_skip (st : RateLimitState) (hits : ℕ)
    (t a : Option ExtractResult) (c : Option CostApiResult) (snap : Snapshot)
    (env : Env) (h : 0 < st.backoffMs) :
    updateTokenMetrics st hits t a c snap env =
      ⟨⟨st.hitCount, st.backoffMs - backoffDecrementMs⟩, snap, false⟩ := by
  unfold updateTokenMetrics
  rw [if_pos h]
  rfl

/-- Witness for C3 at a concrete pending backoff. -/
theorem updateTokenMetrics_backoff_skip_witness :
    (0 : ℤ) < (⟨2, 120000⟩ : RateLimitState).backoffMs
    ∧ updateTokenMetrics ⟨2, 120000⟩ 0 none none none snapZero envZero =
        ⟨⟨2, 120000 - backoffDecrementMs⟩, snapZero, false⟩ :=
  ⟨by decide,
   updateTokenMetrics_backoff_skip ⟨2, 120000⟩ 0 none none none snapZero envZero (by decide)⟩

/-- A one-bucket page-1 payload for the pagination scenarios. -/
def pageData1 : UsageData :=
  ⟨some [⟨⟨2026, 1, 15⟩, some
    [⟨some 1000, some 0, some 500, some "claude-haiku-4-5", none⟩]⟩]⟩

/-- C4 (code bug): with page 1 succeeding (`has_more = true`) and page 2
answering a throttling error, the hit count increments by exactly 1 —
that much of the claim holds — but `fetchAllTimeCosts` never resolves:
the `.then((nextPageData) => { if (nextPageData) { ... } })` at lines
974-994 has no else branch, so when the recursive page fetch resolves
null no `resolve` is ever called and no totals (page-1-only or otherwise)
are delivered; the promise hangs. -/
theorem fetchAllTimeCosts_page2_throttle_hangs :
    fetchAllTimeCosts none false
      [PageResp.ok pageData1 true (some "p2"), PageResp.err true] FetchAcc.empty
      = (FetchOutcome.hung, 1) := by
  decide

/-- The claim's definition of a mean: sum over length, `0` for an empty
list. -/
def specMean (l : List ℚ) : ℚ :=
  if l.length = 0 then 0 else l.sum / (l.length : ℚ)

/-- The claim's definition of month-to-date cost: the sum of the entries
whose date falls within calendar month `m` of year `y`. -/
def specMtdCost (y m : ℕ) (l : List DayCost) : ℚ :=
  ((l.filter (fun e => decide (e.date.y = y ∧ e.date.m = m))).map (·.cost)).sum

theorem avgDaily7Of_eq_specMean (l : List DayCost) :
    avgDaily7Of l = specMean ((sliceLast 7 l).map (·.cost)) := by
  unfold avgDaily7Of specMean
  simp only [List.length_map]
  by_cases h : (sliceLast 7 l).length = 0
  · simp [h]
  · rw [if_pos (by omega), if_neg h]

theorem mtdCostOf_eq_specMtd (now : Ymd) (l : List DayCost)
    (hd : ∀ e ∈ l, 1 ≤ e.date.d ∧
      Ymd.le e.date ⟨now.y, now.m, daysInMonth now.y now.m⟩) :
    mtdCostOf now l = specMtdCost now.y now.m l := by
  have hfil : l.filter (fun d => decide (Ymd.le ⟨now.y, now.m, 1⟩ d.date)) =
      l.filter (fun e => decide (e.date.y = now.y ∧ e.date.m = now.m)) := by
    apply List.filter_congr
    intro e he
    simp only [decide_eq_decide]
    exact Ymd.month_bracket (hd e he).1 (hd e he).2
  simp only [mtdCostOf, specMtdCost]
  rw [hfil]

/-- C8: for a cycle that runs, with every assembled daily entry dated
validly and no later than the end of the current UTC month, the published
`avgDaily7` is the mean of the last (up to) 7 entries of the daily series,
`mtdCost` is the sum of the entries dated within the current UTC calendar
month, and `projectedMonthly` equals
`mtdCost + avgDaily7 * daysRemainingInMonth`. -/
theorem updateTokenMetrics_projection (st : RateLimitState) (hits : ℕ)
    (t a : Option ExtractResult) (c : Option CostApiResult) (snap : Snapshot)
    (env : Env) (hrun : st.backoffMs ≤ 0)
    (hdates : ∀ e ∈ sortedDaysOf t a c, 1 ≤ e.date.d ∧
      Ymd.le e.date ⟨env.nowDate.y, env.nowDate.m,
        daysInMonth env.nowDate.y env.nowDate.m⟩) :
    (updateTokenMetrics st hits t a c snap env).snapshot.avgDaily7 =
      specMean ((sliceLast 7 (sortedDaysOf t a c)).map (·.cost))
    ∧ (updateTokenMetrics st hits t a c snap env).snapshot.mtdCost =
      specMtdCost env.nowDate.y env.nowDate.m (sortedDaysOf t a c)
    ∧ (updateTokenMetrics st hits t a c snap env).snapshot.projectedMonthly =
      (updateTokenMetrics st hits t a c snap env).snapshot.mtdCost
      + (updateTokenMetrics st hits t a c snap env).snapshot.avgDaily7
        * ((daysInMonth env.nowDate.y env.nowDate.m - env.nowDate.d : ℕ) : ℚ) := by
  unfold updateTokenMetrics
  rw [if_neg (by omega)]
  refine ⟨?_, ?_, rfl⟩
  · exact avgDaily7Of_eq_specMean _
  · exact mtdCostOf_eq_specMtd _ _ hdates

/-- Seven $10 daily entries, the last five in the current month. -/
def costC8 : CostApiResult :=
  ⟨70, [⟨⟨2026, 2, 27⟩, 10⟩, ⟨⟨2026, 2, 28⟩, 10⟩, ⟨⟨2026, 3, 1⟩, 10⟩,
    ⟨⟨2026, 3, 2⟩, 10⟩, ⟨⟨2026, 3, 3⟩, 10⟩, ⟨⟨2026, 3, 4⟩, 10⟩, ⟨⟨2026, 3, 5⟩, 10⟩]⟩

/-- Witness for C8: on 2026-03-21 (10 days remaining in March), seven
identical $10 entries give `avgDaily7 = 10`, `mtdCost = 50`, and
`projectedMonthly = 50 + 10 * 10 = 150`. -/
theorem updateTokenMetrics_projection_witness :
    ((⟨0, 0⟩ : RateLimitState).backoffMs ≤ 0)
    ∧ (updateTokenMetrics ⟨0, 0⟩ 0 none none (some costC8) snapZero envZero).snapshot.avgDaily7 = 10
    ∧ (updateTokenMetrics ⟨0, 0⟩ 0 none none (some costC8) snapZero envZero).snapshot.mtdCost = 50
    ∧ (updateTokenMetrics ⟨0, 0⟩ 0 none none (some costC8) snapZero envZero).snapshot.projectedMonthly = 150 := by
  have h := updateTokenMetrics_projection ⟨0, 0⟩ 0 none none (some costC8) snapZero envZero
    (by decide) (by decide)
  have hsorted : sortedDaysOf none none (some costC8) =
      [⟨⟨2026, 2, 27⟩, 10⟩, ⟨⟨2026, 2, 28⟩, 10⟩, ⟨⟨2026, 3, 1⟩, 10⟩, ⟨⟨2026, 3, 2⟩, 10⟩,
        ⟨⟨2026, 3, 3⟩, 10⟩, ⟨⟨2026, 3, 4⟩, 10⟩, ⟨⟨2026, 3, 5⟩, 10⟩] := by
    norm_num [sortedDaysOf, dailyCostMapOf, mergeAddMap, mapMergeFold, mapUpsert, costC8,
      List.insertionSort, List.orderedInsert, dayLe, Ymd.le, Ymd.mk.injEq]
  have havg : (updateTokenMetrics ⟨0, 0⟩ 0 none none (some costC8) snapZero envZero).snapshot.avgDaily7 = 10 := by
    rw [h.1, hsorted]
    norm_num [specMean, sliceLast]
  have hmtd : (updateTokenMetrics ⟨0, 0⟩ 0 none none (some costC8) snapZero envZero).snapshot.mtdCost = 50 := by
    rw [h.2.1, hsorted]
    norm_num [specMtdCost, envZero, List.filter]
  refine ⟨by decide, havg, hmtd, ?_⟩
  rw [h.2.2, havg, hmtd]
  norm_num [envZero, daysInMonth]

theorem mapKeys_nodup_mergeFold {κ : Type} {α : Type} [DecidableEq κ]
    (g : α → α → α) (d : α) (acc p : List (κ × α))
    (h : (mapKeys acc).Nodup) : (mapKeys (mapMergeFold g d acc p)).Nodup := by
  unfold mapMergeFold
  refine foldlPreserveMem (fun (m : List (κ × α)) => (mapKeys m).Nodup) _ p ?_ _ h
  intro m e _ hm
  exact mapKeys_nodup_upsert _ _ _ _ hm

/-- The daily cost map is built by upserts from an empty object, so its
dates are distinct. -/
theorem dailyCostMapOf_keys_nodup (t a : Option ExtractResult)
    (c : Option CostApiResult) : (mapKeys (dailyCostMapOf t a c)).Nodup := by
  unfold dailyCostMapOf mergeAddMap
  apply mapKeys_nodup_mergeFold
  cases c with
  | none =>
    apply mapKeys_nodup_mergeFold
    simp [mapKeys]
  | some cd =>
    apply mapKeys_nodup_mergeFold
    simp [mapKeys]

theorem sortedDaysOf_dates_nodup (t a : Option ExtractResult)
    (c : Option CostApiResult) :
    ((sortedDaysOf t a c).map (fun e => e.date)).Nodup := by
  have hperm := List.perm_insertionSort dayLe
    ((dailyCostMapOf t a c).map (fun e => (⟨e.1, e.2⟩ : DayCost)))
  have hbase :
      ((((dailyCostMapOf t a c).map (fun e => (⟨e.1, e.2⟩ : DayCost))).map
        (fun e => e.date))).Nodup := by
    rw [List.map_map]
    simpa [mapKeys, Function.comp] using dailyCostMapOf_keys_nodup t a c
  exact ((hperm.map (fun e => e.date)).nodup_iff).mpr hbase

theorem pairwise_lt_of_le_nodup : ∀ (l : List DayCost),
    List.Pairwise dayLe l → ((l.map (fun e => e.date)).Nodup) →
    List.Pairwise (fun x y => Ymd.lt x.date y.date) l
  | [], _, _ => by simp
  | x :: xs, hp, hn => by
    rw [List.pairwise_cons] at hp ⊢
    simp only [List.map_cons, List.nodup_cons] at hn
    refine ⟨?_, pairwise_lt_of_le_nodup xs hp.2 hn.2⟩
    intro y hy
    apply Ymd.lt_of_le_of_ne (hp.1 y hy)
    intro hc
    apply hn.1
    rw [hc]
    exact List.mem_map_of_mem (fun e => e.date) hy

/-- The date-ascending daily series is strictly increasing by date. -/
theorem sortedDaysOf_pairwise_lt (t a : Option ExtractResult)
    (c : Option CostApiResult) :
    List.Pairwise (fun x y : DayCost => Ymd.lt x.date y.date) (sortedDaysOf t a c) := by
  have hs : List.Sorted dayLe (sortedDaysOf t a c) :=
    List.sorted_insertionSort dayLe _
  exact pairwise_lt_of_le_nodup _ hs (sortedDaysOf_dates_nodup t a c)

/-- C9: in a cycle that runs, the published `dailyCostHistory` is the last
(at most) 30 entries of the date-ascending daily series: it is strictly
sorted ascending by date, never exceeds 30 entries, and every assembled
entry that was dropped is dated strictly before every retained entry — so
distinct dated entries beyond 30 lose exactly the earliest ones. -/
theorem updateTokenMetrics_history (st : RateLimitState) (hits : ℕ)
    (t a : Option ExtractResult) (c : Option CostApiResult) (snap : Snapshot)
    (env : Env) (hrun : st.backoffMs ≤ 0) :
    (updateTokenMetrics st hits t a c snap env).snapshot.dailyCostHistory
      = sliceLast 30 (sortedDaysOf t a c)
    ∧ List.Pairwise (fun x y : DayCost => Ymd.lt x.date y.date)
        ((updateTokenMetrics st hits t a c snap env).snapshot.dailyCostHistory)
    ∧ (updateTokenMetrics st hits t a c snap env).snapshot.dailyCostHistory.length ≤ 30
    ∧ (∀ x ∈ sortedDaysOf t a c,
        x ∉ (updateTokenMetrics st hits t a c snap env).snapshot.dailyCostHistory →
        ∀ y ∈ (updateTokenMetrics st hits t a c snap env).snapshot.dailyCostHistory,
          Ymd.lt x.date y.date) := by
  have h0 : (updateTokenMetrics st hits t a c snap env).snapshot.dailyCostHistory
      = sliceLast 30 (sortedDaysOf t a c) := by
    unfold updateTokenMetrics
    rw [if_neg (by omega)]
  have hpl := sortedDaysOf_pairwise_lt t a c
  refine ⟨h0, ?_, ?_, ?_⟩
  · rw [h0]
    exact List.Pairwise.sublist (List.drop_sublist _ _) hpl
  · rw [h0]
    unfold sliceLast
    rw [List.length_drop]
    omega
  · intro x hx hnx y hy
    rw [h0] at hnx hy
    have hsplit := List.take_append_drop
      ((sortedDaysOf t a c).length - 30) (sortedDaysOf t a c)
    have hx2 : x ∈ List.take ((sortedDaysOf t a c).length - 30) (sortedDaysOf t a c)
        ++ List.drop ((sortedDaysOf t a c).length - 30) (sortedDaysOf t a c) := by
      rw [hsplit]; exact hx
    have hx3 : x ∈ List.take ((sortedDaysOf t a c).length - 30) (sortedDaysOf t a c) := by
      rcases List.mem_append.mp hx2 with h | h
      · exact h
      · exact absurd h hnx
    have hp2 := hpl
    rw [← hsplit] at hp2
    exact (List.pairwise_append.mp hp2).2.2 x hx3 y hy

/-- Forty $1 entries on forty distinct dates (all of January plus the
first nine days of February). -/
def cost40 : CostApiResult :=
  ⟨40, ((List.range 31).map (fun i => ⟨⟨2026, 1, i + 1⟩, 1⟩))
    ++ ((List.range 9).map (fun i => ⟨⟨2026, 2, i + 1⟩, 1⟩))⟩

/-- Witness for C9: feeding 40 distinct dated entries, the published
history holds exactly the 30 latest dates (Jan 11 … Feb 9). -/
theorem updateTokenMetrics_history_witness :
    ((⟨0, 0⟩ : RateLimitState).backoffMs ≤ 0)
    ∧ (updateTokenMetrics ⟨0, 0⟩ 0 none none (some cost40) snapZero envZero).snapshot.dailyCostHistory
        = sliceLast 30 (sortedDaysOf none none (some cost40))
    ∧ (sortedDaysOf none none (some cost40)).length = 40
    ∧ (updateTokenMetrics ⟨0, 0⟩ 0 none none (some cost40) snapZero envZero).snapshot.dailyCostHistory.length = 30
    ∧ ((updateTokenMetrics ⟨0, 0⟩ 0 none none (some cost40) snapZero envZero).snapshot.dailyCostHistory.map
        (fun e => e.date))
        = ((List.range 21).map (fun i => (⟨2026, 1, i + 11⟩ : Ymd)))
          ++ ((List.range 9).map (fun i => (⟨2026, 2, i + 1⟩ : Ymd))) := by
  have h := updateTokenMetrics_history ⟨0, 0⟩ 0 none none (some cost40) snapZero envZero
    (by decide)
  exact ⟨by decide, h.1, by decide, by decide, by decide⟩

theorem mapUpsert_forall_values {κ : Type} {α : Type} [DecidableEq κ] (P : α → Prop)
    (m : List (κ × α)) (k : κ) (d : α) (f : α → α)
    (hm : ∀ e ∈ m, P e.2) (hd : P d) (hf : ∀ v, P v → P (f v)) :
    ∀ e ∈ mapUpsert m k d f, P e.2 := by
  induction m with
  | nil =>
    intro e he
    simp only [mapUpsert, List.mem_singleton] at he
    subst he
    exact hf d hd
  | cons e0 rest ih =>
    intro e he
    by_cases he0 : e0.1 = k
    · simp only [mapUpsert, if_pos he0] at he
      rcases List.mem_cons.mp he with h | h
      · subst h; exact hf e0.2 (hm e0 (List.mem_cons_self _ _))
      · exact hm e (List.mem_cons_of_mem _ h)
    · simp only [mapUpsert, if_neg he0] at he
      rcases List.mem_cons.mp he with h | h
      · subst h; exact hm e (List.mem_cons_self _ _)
      · exact ih (fun e' he' => hm e' (List.mem_cons_of_mem _ he')) e h

theorem mapFind?_some_mem {κ : Type} {α : Type} [DecidableEq κ]
    (m : List (κ × α)) (k : κ) (v : α) (h : mapFind? m k = some v) : (k, v) ∈ m := by
  induction m with
  | nil => simp [mapFind?] at h
  | cons e rest ih =>
    by_cases he : e.1 = k
    · simp only [mapFind?, if_pos he] at h
      injection h with h
      have : e = (k, v) := by
        obtain ⟨e1, e2⟩ := e
        simp only at he h
        rw [he, h]
      rw [← this]
      exact List.mem_cons_self _ _
    · simp only [mapFind?, if_neg he] at h
      exact List.mem_cons_of_mem _ (ih h)

/-- Inner maps of a per-credential record have distinct keys. -/
def recWF (r : AgentRec) : Prop :=
  (mapKeys r.dailyCosts).Nodup ∧ (mapKeys r.modelTokens).Nodup

/-- A per-agent map with distinct credential keys and well-formed
records. -/
def perAgentWF (m : List (String × AgentRec)) : Prop :=
  (mapKeys m).Nodup ∧ ∀ e ∈ m, recWF e.2

/-- Extraction builds its maps from empty objects by upserts, so all keys
are distinct. -/
theorem extract_wf (cm : Option Tier) (u : UsageData) (g : Bool) :
    perAgentWF (extractDailyBreakdown cm u g).perAgent
    ∧ (mapKeys (extractDailyBreakdown cm u g).perModel).Nodup := by
  have hstep : ∀ (dt : Ymd) (s : ExtractAcc) (r : UsageResult),
      (perAgentWF s.perAgent ∧ (mapKeys s.perModel).Nodup) →
      (perAgentWF (extractStepResult cm g dt s r).perAgent
        ∧ (mapKeys (extractStepResult cm g dt s r).perModel).Nodup) := by
    intro dt s r hs
    constructor
    · show perAgentWF (extractStepResult cm g dt s r).perAgent
      simp only [extractStepResult]
      cases g with
      | false => simpa using hs.1
      | true =>
        cases hk : r.api_key_id with
        | none => simpa using hs.1
        | some keyId =>
          simp only [if_true]
          refine ⟨mapKeys_nodup_upsert _ _ _ _ hs.1.1, ?_⟩
          apply mapUpsert_forall_values recWF _ _ _ _ hs.1.2
          · exact ⟨by simp [AgentRec.zero, mapKeys], by simp [AgentRec.zero, mapKeys]⟩
          · intro v hv
            exact ⟨mapKeys_nodup_upsert _ _ _ _ hv.1, mapKeys_nodup_upsert _ _ _ _ hv.2⟩
    · show (mapKeys (extractStepResult cm g dt s r).perModel).Nodup
      simp only [extractStepResult]
      exact mapKeys_nodup_upsert _ _ _ _ hs.2
  have hfold : ∀ (bs : List UsageBucket) (s : ExtractAcc),
      (perAgentWF s.perAgent ∧ (mapKeys s.perModel).Nodup) →
      (perAgentWF (bs.foldl (extractStepBucket cm g) s).perAgent
        ∧ (mapKeys ((bs.foldl (extractStepBucket cm g) s)).perModel).Nodup) := by
    intro bs
    apply foldlPreserveMem
      (fun (s : ExtractAcc) => perAgentWF s.perAgent ∧ (mapKeys s.perModel).Nodup)
    intro s b _ hs
    cases hr : b.results with
    | none => simpa [extractStepBucket, hr] using hs
    | some rs =>
      simp only [extractStepBucket, hr]
      refine foldlPreserveMem
        (fun (s : ExtractAcc) => perAgentWF s.perAgent ∧ (mapKeys s.perModel).Nodup)
        _ rs ?_ _ hs
      intro s' r _ hs'
      exact hstep b.starting_at s' r hs'
  cases hd : u.data with
  | none =>
    constructor
    · exact ⟨by simp [extractDailyBreakdown, hd, mapKeys], by simp [extractDailyBreakdown, hd]⟩
    · simp [extractDailyBreakdown, hd, mapKeys]
  | some bs =>
    simp only [extractDailyBreakdown, hd]
    exact hfold bs ⟨[], 0, 0, [], []⟩
      ⟨⟨by simp [mapKeys], by simp⟩, by simp [mapKeys]⟩

/-- Without credential grouping, extraction's per-agent map stays empty. -/
theorem extract_perAgent_nil (cm : Option Tier) (u : UsageData) :
    (extractDailyBreakdown cm u false).perAgent = [] := by
  cases hd : u.data with
  | none => simp [extractDailyBreakdown, hd]
  | some bs =>
    simp only [extractDailyBreakdown, hd]
    refine foldlPreserveMem (fun (s : ExtractAcc) => s.perAgent = []) _ bs ?_ _ rfl
    intro s b _ hs
    cases hr : b.results with
    | none => simpa [extractStepBucket, hr] using hs
    | some rs =>
      simp only [extractStepBucket, hr]
      refine foldlPreserveMem (fun (s : ExtractAcc) => s.perAgent = []) _ rs ?_ _ hs
      intro s' r _ hs'
      simpa [extractStepResult] using hs'

/-- Key-wise effect of merging one page's per-agent map: for each
credential, the page's record (if any) is added onto the accumulated
record. -/
theorem mergeAgentMaps_getD (acc p : List (String × AgentRec)) (k : String)
    (hp : (mapKeys p).Nodup) :
    mapGetD (mergeAgentMaps acc p) k AgentRec.zero =
      (match mapFind? p k with
       | some v => mergeAgentRec v (mapGetD acc k AgentRec.zero)
       | none => mapGetD acc k AgentRec.zero) := by
  unfold mergeAgentMaps
  rw [mapGetD_mapMergeFold]
  cases hf : mapFind? p k with
  | none => rw [mapValuesAt_of_find?_eq_none _ _ hf]; rfl
  | some v => rw [mapValuesAt_of_find?_eq_some _ _ _ hp hf]; rfl

theorem mergeAgentRec_dailyCosts_getD (v a : AgentRec) (dt : Ymd)
    (hv : (mapKeys v.dailyCosts).Nodup) :
    mapGetD (mergeAgentRec v a).dailyCosts dt 0 =
      mapGetD a.dailyCosts dt 0 + mapGetD v.dailyCosts dt 0 := by
  show mapGetD (mergeAddMap a.dailyCosts v.dailyCosts) dt 0 = _
  unfold mergeAddMap
  rw [mapGetD_mergeAdd, ← mapGetD_eq_sum_valuesAt _ _ hv]

theorem mergeAgentRec_modelTokens_getD (v a : AgentRec) (tr : Tier)
    (hv : (mapKeys v.modelTokens).Nodup) :
    mapGetD (mergeAgentRec v a).modelTokens tr 0 =
      mapGetD a.modelTokens tr 0 + mapGetD v.modelTokens tr 0 := by
  show mapGetD (mergeAddMap a.modelTokens v.modelTokens) tr 0 = _
  unfold mergeAddMap
  rw [mapGetD_mergeAdd, ← mapGetD_eq_sum_valuesAt _ _ hv]

theorem two_merge_getD (X Y : List (String × AgentRec)) (k : String)
    (hX : perAgentWF X) (hY : perAgentWF Y) :
    (mapGetD (mergeAgentMaps (mergeAgentMaps [] X) Y) k AgentRec.zero).tokens
      = (mapGetD X k AgentRec.zero).tokens + (mapGetD Y k AgentRec.zero).tokens
    ∧ (mapGetD (mergeAgentMaps (mergeAgentMaps [] X) Y) k AgentRec.zero).cost
      = (mapGetD X k AgentRec.zero).cost + (mapGetD Y k AgentRec.zero).cost
    ∧ (mapGetD (mergeAgentMaps (mergeAgentMaps [] X) Y) k AgentRec.zero).cacheRead
      = (mapGetD X k AgentRec.zero).cacheRead + (mapGetD Y k AgentRec.zero).cacheRead
    ∧ (mapGetD (mergeAgentMaps (mergeAgentMaps [] X) Y) k AgentRec.zero).uncachedInput
      = (mapGetD X k AgentRec.zero).uncachedInput + (mapGetD Y k AgentRec.zero).uncachedInput
    ∧ (∀ dt : Ymd,
        mapGetD (mapGetD (mergeAgentMaps (mergeAgentMaps [] X) Y) k AgentRec.zero).dailyCosts dt 0
          = mapGetD (mapGetD X k AgentRec.zero).dailyCosts dt 0
            + mapGetD (mapGetD Y k AgentRec.zero).dailyCosts dt 0)
    ∧ (∀ tr : Tier,
        mapGetD (mapGetD (mergeAgentMaps (mergeAgentMaps [] X) Y) k AgentRec.zero).modelTokens tr 0
          = mapGetD (mapGetD X k AgentRec.zero).modelTokens tr 0
            + mapGetD (mapGetD Y k AgentRec.zero).modelTokens tr 0) := by
  have hm2 := mergeAgentMaps_getD (mergeAgentMaps [] X) Y k hY.1
  have hm1 := mergeAgentMaps_getD [] X k hX.1
  cases hf1 : mapFind? X k with
  | none =>
    have hx : mapGetD X k AgentRec.zero = AgentRec.zero := by
      rw [mapGetD_eq_getD_find?, hf1]; rfl
    simp only [hf1] at hm1
    cases hf2 : mapFind? Y k with
    | none =>
      have hy : mapGetD Y k AgentRec.zero = AgentRec.zero := by
        rw [mapGetD_eq_getD_find?, hf2]; rfl
      simp only [hf2] at hm2
      rw [hm2, hm1, hx, hy]
      refine ⟨by simp [AgentRec.zero, mapGetD], by simp [AgentRec.zero, mapGetD],
        by simp [AgentRec.zero, mapGetD], by simp [AgentRec.zero, mapGetD],
        fun dt => by simp [AgentRec.zero, mapGetD], fun tr => by simp [AgentRec.zero, mapGetD]⟩
    | some w =>
      have hy : mapGetD Y k AgentRec.zero = w := by
        rw [mapGetD_eq_getD_find?, hf2]; rfl
      have hw : recWF w := hY.2 (k, w) (mapFind?_some_mem Y k w hf2)
      simp only [hf2] at hm2
      rw [hm2, hm1, hx, hy]
      refine ⟨by simp [mergeAgentRec, AgentRec.zero, mapGetD],
        by simp [mergeAgentRec, AgentRec.zero, mapGetD],
        by simp [mergeAgentRec, AgentRec.zero, mapGetD],
        by simp [mergeAgentRec, AgentRec.zero, mapGetD], fun dt => ?_, fun tr => ?_⟩
      · rw [mergeAgentRec_dailyCosts_getD w _ dt hw.1]
        simp [AgentRec.zero, mapGetD]
      · rw [mergeAgentRec_modelTokens_getD w _ tr hw.2]
        simp [AgentRec.zero, mapGetD]
  | some v =>
    have hx : mapGetD X k AgentRec.zero = v := by
      rw [mapGetD_eq_getD_find?, hf1]; rfl
    have hv : recWF v := hX.2 (k, v) (mapFind?_some_mem X k v hf1)
    simp only [hf1] at hm1
    have hm1' : mapGetD (mergeAgentMaps [] X) k AgentRec.zero = mergeAgentRec v AgentRec.zero := by
      rw [hm1]; rfl
    cases hf2 : mapFind? Y k with
    | none =>
      have hy : mapGetD Y k AgentRec.zero = AgentRec.zero := by
        rw [mapGetD_eq_getD_find?, hf2]; rfl
      simp only [hf2] at hm2
      rw [hm2, hm1', hx, hy]
      refine ⟨by simp [mergeAgentRec, AgentRec.zero, mapGetD],
        by simp [mergeAgentRec, AgentRec.zero, mapGetD],
        by simp [mergeAgentRec, AgentRec.zero, mapGetD],
        by simp [mergeAgentRec, AgentRec.zero, mapGetD], fun dt => ?_, fun tr => ?_⟩
      · rw [mergeAgentRec_dailyCosts_getD v _ dt hv.1]
        simp [AgentRec.zero, mapGetD]
      · rw [mergeAgentRec_modelTokens_getD v _ tr hv.2]
        simp [AgentRec.zero, mapGetD]
    | some w =>
      have hy : mapGetD Y k AgentRec.zero = w := by
        rw [mapGetD_eq_getD_find?, hf2]; rfl
      have hw : recWF w := hY.2 (k, w) (mapFind?_some_mem Y k w hf2)
      simp only [hf2] at hm2
      rw [hm2, hm1', hx, hy]
      refine ⟨by simp [mergeAgentRec, AgentRec.zero],
        by simp [mergeAgentRec, AgentRec.zero],
        by simp [mergeAgentRec, AgentRec.zero],
        by simp [mergeAgentRec, AgentRec.zero], fun dt => ?_, fun tr => ?_⟩
      · rw [mergeAgentRec_dailyCosts_getD w _ dt hw.1,
          mergeAgentRec_dailyCosts_getD v _ dt hv.1]
        simp [AgentRec.zero, mapGetD]
      · rw [mergeAgentRec_modelTokens_getD w _ tr hw.2,
          mergeAgentRec_modelTokens_getD v _ tr hv.2]
        simp [AgentRec.zero, mapGetD]

/-- The value the two-page fetch resolves with, unfolded from the
`fetchAllTimeCosts` recursion (page 1 paginates, page 2 is final). -/
def rTwoPages (cm : Option Tier) (g : Bool) (d1 d2 : UsageData) : ExtractResult :=
  let e1 := extractDailyBreakdown cm d1 g
  let e2 := extractDailyBreakdown cm d2 g
  let pa1 := if g then mergeAgentMaps [] e1.perAgent else []
  let pm1 := mergeAddMap [] e1.perModel
  let bd1 := [] ++ e1.dailyBreakdown
  let cr1 := 0 + e1.globalCacheRead
  let un1 := 0 + e1.globalUncachedInput
  let pa2 := if g then mergeAgentMaps pa1 e2.perAgent else pa1
  let pm2 := mergeAddMap pm1 e2.perModel
  let bd2 := bd1 ++ e2.dailyBreakdown
  let cr2 := cr1 + e2.globalCacheRead
  let un2 := un1 + e2.globalUncachedInput
  ⟨bd2, e1.totalTokens + e2.totalTokens, e1.totalCost + e2.totalCost, pa2, pm2,
    if cr2 = 0 then cr1 else cr2,
    if un2 = 0 then un1 else un2⟩

/-- C7: every 2-page all-time fetch (page 1 `has_more = true` with a live
cursor, page 2 final) resolves with totals equal to the sum of the two
per-page extractor totals, the concatenation of the per-page daily
breakdowns, the sums of the per-page cache totals, and the key-wise sums
of the per-page `perModel` and `perAgent` outputs (per credential:
tokens, cost and cache counters added, `dailyCosts` and `modelTokens`
merged key-wise). -/
theorem fetchAllTimeCosts_two_pages (cm : Option Tier) (g : Bool)
    (d1 d2 : UsageData) (np1 : String) (np2 : Option String)
    (hnp : jsTruthyStr (some np1) = true) :
    ∃ r : ExtractResult,
      fetchAllTimeCosts cm g
        [PageResp.ok d1 true (some np1), PageResp.ok d2 false np2] FetchAcc.empty
        = (FetchOutcome.resolved (some r), 0)
      ∧ r.totalTokens = (extractDailyBreakdown cm d1 g).totalTokens
          + (extractDailyBreakdown cm d2 g).totalTokens
      ∧ r.totalCost = (extractDailyBreakdown cm d1 g).totalCost
          + (extractDailyBreakdown cm d2 g).totalCost
      ∧ r.dailyBreakdown = (extractDailyBreakdown cm d1 g).dailyBreakdown
          ++ (extractDailyBreakdown cm d2 g).dailyBreakdown
      ∧ r.globalCacheRead = (extractDailyBreakdown cm d1 g).globalCacheRead
          + (extractDailyBreakdown cm d2 g).globalCacheRead
      ∧ r.globalUncachedInput = (extractDailyBreakdown cm d1 g).globalUncachedInput
          + (extractDailyBreakdown cm d2 g).globalUncachedInput
      ∧ (∀ tr : Tier, mapGetD r.perModel tr 0
          = mapGetD (extractDailyBreakdown cm d1 g).perModel tr 0
            + mapGetD (extractDailyBreakdown cm d2 g).perModel tr 0)
      ∧ (∀ k : String,
          (mapGetD r.perAgent k AgentRec.zero).tokens
            = (mapGetD (extractDailyBreakdown cm d1 g).perAgent k AgentRec.zero).tokens
              + (mapGetD (extractDailyBreakdown cm d2 g).perAgent k AgentRec.zero).tokens
          ∧ (mapGetD r.perAgent k AgentRec.zero).cost
            = (mapGetD (extractDailyBreakdown cm d1 g).perAgent k AgentRec.zero).cost
              + (mapGetD (extractDailyBreakdown cm d2 g).perAgent k AgentRec.zero).cost
          ∧ (mapGetD r.perAgent k AgentRec.zero).cacheRead
            = (mapGetD (extractDailyBreakdown cm d1 g).perAgent k AgentRec.zero).cacheRead
              + (mapGetD (extractDailyBreakdown cm d2 g).perAgent k AgentRec.zero).cacheRead
          ∧ (mapGetD r.perAgent k AgentRec.zero).uncachedInput
            = (mapGetD (extractDailyBreakdown cm d1 g).perAgent k AgentRec.zero).uncachedInput
              + (mapGetD (extractDailyBreakdown cm d2 g).perAgent k AgentRec.zero).uncachedInput
          ∧ (∀ dt : Ymd,
              mapGetD (mapGetD r.perAgent k AgentRec.zero).dailyCosts dt 0
                = mapGetD (mapGetD (extractDailyBreakdown cm d1 g).perAgent k AgentRec.zero).dailyCosts dt 0
                  + mapGetD (mapGetD (extractDailyBreakdown cm d2 g).perAgent k AgentRec.zero).dailyCosts dt 0)
          ∧ (∀ tr : Tier,
              mapGetD (mapGetD r.perAgent k AgentRec.zero).modelTokens tr 0
                = mapGetD (mapGetD (extractDailyBreakdown cm d1 g).perAgent k AgentRec.zero).modelTokens tr 0
                  + mapGetD (mapGetD (extractDailyBreakdown cm d2 g).perAgent k AgentRec.zero).modelTokens tr 0)) := by
  have hfetch : fetchAllTimeCosts cm g
      [PageResp.ok d1 true (some np1), PageResp.ok d2 false np2] FetchAcc.empty
      = (FetchOutcome.resolved (some (rTwoPages cm g d1 d2)), 0) := by
    simp only [fetchAllTimeCosts, hnp, Bool.true_and, Bool.false_and, if_true, if_false]
    rfl
  refine ⟨rTwoPages cm g d1 d2, hfetch, rfl, rfl, ?_, ?_, ?_, ?_, ?_⟩
  · show ([] ++ (extractDailyBreakdown cm d1 g).dailyBreakdown)
      ++ (extractDailyBreakdown cm d2 g).dailyBreakdown = _
    simp
  · show (if (0 + (extractDailyBreakdown cm d1 g).globalCacheRead)
        + (extractDailyBreakdown cm d2 g).globalCacheRead = 0
      then 0 + (extractDailyBreakdown cm d1 g).globalCacheRead
      else (0 + (extractDailyBreakdown cm d1 g).globalCacheRead)
        + (extractDailyBreakdown cm d2 g).globalCacheRead) = _
    split <;> omega
  · show (if (0 + (extractDailyBreakdown cm d1 g).globalUncachedInput)
        + (extractDailyBreakdown cm d2 g).globalUncachedInput = 0
      then 0 + (extractDailyBreakdown cm d1 g).globalUncachedInput
      else (0 + (extractDailyBreakdown cm d1 g).globalUncachedInput)
        + (extractDailyBreakdown cm d2 g).globalUncachedInput) = _
    split <;> omega
  · intro tr
    show mapGetD (mergeAddMap (mergeAddMap [] (extractDailyBreakdown cm d1 g).perModel)
      (extractDailyBreakdown cm d2 g).perModel) tr 0 = _
    unfold mergeAddMap
    rw [mapGetD_mergeAdd, mapGetD_mergeAdd,
      ← mapGetD_eq_sum_valuesAt _ _ (extract_wf cm d2 g).2,
      ← mapGetD_eq_sum_valuesAt _ _ (extract_wf cm d1 g).2]
    show (mapGetD [] tr 0 + _) + _ = _
    simp [mapGetD]
  · intro k
    cases g with
    | false =>
      have h1 := extract_perAgent_nil cm d1
      have h2 := extract_perAgent_nil cm d2
      simp [rTwoPages, h1, h2, mapGetD, AgentRec.zero]
    | true =>
      simp only [rTwoPages, if_true]
      exact two_merge_getD _ _ k (extract_wf cm d1 true).1 (extract_wf cm d2 true).1

/-- A one-bucket page-2 payload carrying a credential id. -/
def pageData2 : UsageData :=
  ⟨some [⟨⟨2026, 1, 16⟩, some
    [⟨some 200, some 100, some 50, some "claude-opus-4", some "key_a"⟩]⟩]⟩

/-- Witness for C7 at a concrete 2-page credential-grouped sequence. -/
theorem fetchAllTimeCosts_two_pages_witness :
    jsTruthyStr (some "p2") = true
    ∧ ∃ r : ExtractResult,
        fetchAllTimeCosts none true
          [PageResp.ok pageData1 true (some "p2"), PageResp.ok pageData2 false none]
          FetchAcc.empty
          = (FetchOutcome.resolved (some r), 0)
        ∧ r.totalTokens = (extractDailyBreakdown none pageData1 true).totalTokens
            + (extractDailyBreakdown none pageData2 true).totalTokens
        ∧ (∀ tr : Tier, mapGetD r.perModel tr 0
            = mapGetD (extractDailyBreakdown none pageData1 true).perModel tr 0
              + mapGetD (extractDailyBreakdown none pageData2 true).perModel tr 0) := by
  have h := fetchAllTimeCosts_two_pages none true pageData1 pageData2 "p2" none (by decide)
  obtain ⟨r, h1, h2, _, _, _, _, h7, _⟩ := h
  exact ⟨by decide, r, h1, h2, h7⟩
